import Mathlib

/-!
Shallow embedding of the battleship board engine of `src/task_C2_5.py`.

Python exceptions are modelled by the inductive `Err`, classified the way the
specification classifies them: `BoardOutException` is `boundsError`;
`IncorrectParametersException` raised for a bad length is `domainError`,
raised inside `Board.add_ship` it is `placementError`, raised for a repeated
shot it is `repeatShotError`; `GameplayException` raised by
`Ship.reduce_health` is `domainError`.  Mutation plus exceptions is modelled
by state passing: each board operation returns the `Except` outcome together
with the board as it stands when the operation returns or raises, so a raise
after a partial mutation is observable.
-/

inductive Err where
  | boundsError
  | domainError
  | placementError
  | repeatShotError
deriving DecidableEq

instance {ε α : Type} [DecidableEq ε] [DecidableEq α] : DecidableEq (Except ε α) :=
  fun x y =>
  match x, y with
  | .ok a, .ok b =>
    if h : a = b then .isTrue (by rw [h]) else .isFalse (by intro hh; cases hh; exact h rfl)
  | .ok _, .error _ => .isFalse (by intro h; cases h)
  | .error _, .ok _ => .isFalse (by intro h; cases h)
  | .error e, .error f =>
    if h : e = f then .isTrue (by rw [h]) else .isFalse (by intro hh; cases hh; exact h rfl)

/-- Cell visibility states, `Dot.STATE_CHOICES` in the source. -/
inductive DotState where
  | undamaged
  | damaged
  | missed
  | hidden
deriving DecidableEq

/-- A grid cell: integer column and row plus a visibility state.
The derived display icon of the source is presentation-only and dropped. -/
structure Dot where
  column : Int
  row : Int
  state : DotState
deriving DecidableEq

/-- Coordinates lying on the 6×6 board, the guard of the `column`/`row`
property setters of `Dot`. -/
def inB (p : Int × Int) : Prop :=
  1 ≤ p.1 ∧ p.1 ≤ 6 ∧ 1 ≤ p.2 ∧ p.2 ≤ 6

instance : DecidablePred inB := fun p => by
  unfold inB; infer_instance

/-- `Dot.__init__`: the column setter checks its range, then the row setter
checks its range; a violation raises `BoardOutException`.  The default state
is `"hidden"`, accepted by the state setter. -/
def mkDot (column row : Int) : Except Err Dot :=
  if 1 ≤ column ∧ column ≤ 6 then
    if 1 ≤ row ∧ row ≤ 6 then
      .ok ⟨column, row, .hidden⟩
    else
      .error .boundsError
  else
    .error .boundsError

inductive Direction where
  | horizontal
  | vertical
deriving DecidableEq

/-- A ship: length, direction, anchor dot and current health.  The source also
keeps a `dots_list` of cell references that is written during `add_ship` but
never read by the engine, so it is dropped here. -/
structure Ship where
  length : Int
  direction : Direction
  start_point : Dot
  health : Int
deriving DecidableEq

/-- `Ship.get_dots`: the ordered list of (column, row) pairs occupied by the
ship, the anchor plus `length - 1` successive cells along the direction. -/
def Ship.get_dots (s : Ship) : List (Int × Int) :=
  (List.range s.length.toNat).map (fun (i : Nat) =>
    match s.direction with
    | .horizontal => (s.start_point.column + (i : Int), s.start_point.row)
    | .vertical => (s.start_point.column, s.start_point.row + (i : Int)))

/-- `Ship.reduce_health`: decrement health, raising `GameplayException`
(`domainError`) when health is not positive. -/
def Ship.reduce_health (s : Ship) : Except Err Ship :=
  if s.health > 0 then
    .ok { s with health := s.health - 1 }
  else
    .error .domainError

def exceptOk : Except Err Dot → Bool
  | .ok _ => true
  | .error _ => false

/-- The i-th coordinate of the run derived from an anchor, as constructed both
by the `start_point` setter's feasibility check and by `get_dots`. -/
def runCoord (direction : Direction) (start_point : Dot) (i : Nat) : Int × Int :=
  match direction with
  | .horizontal => (start_point.column + (i : Int), start_point.row)
  | .vertical => (start_point.column, start_point.row + (i : Int))

/-- `Ship.__init__`: the length setter (1..3, else
`IncorrectParametersException` = `domainError`), then the direction setter
(an enum here, so always valid), then the `start_point` setter, which
constructs every derived `Dot` and turns any `BoardOutException` into a
`BoardOutException` (`boundsError`).  `health` defaults to the length. -/
def Ship.make (length : Int) (direction : Direction) (start_point : Dot) :
    Except Err Ship :=
  if 1 ≤ length ∧ length ≤ 3 then
    if (List.range length.toNat).all (fun i =>
        exceptOk (mkDot (runCoord direction start_point i).1
          (runCoord direction start_point i).2)) then
      .ok ⟨length, direction, start_point, length⟩
    else
      .error .boundsError
  else
    .error .domainError

/-- One side's board: the 6×6 cell matrix (here a total function from
coordinates to cells; the source's header row and column are print-only),
the active fleet `ships_list`, and the remaining-length list
`ship_length_list`. -/
structure Board where
  grid : Int × Int → Dot
  ships_list : List Ship
  ship_length_list : List Int

/-- `Board.__init__` / `create_board`: every cell hidden, empty fleet,
lengths `[3, 2, 2, 1, 1, 1, 1]`. -/
def Board.init : Board where
  grid := fun p => ⟨p.1, p.2, .hidden⟩
  ships_list := []
  ship_length_list := [3, 2, 2, 1, 1, 1, 1]

/-- `self.board[row][column].state = st`: update the state of one cell,
keeping its coordinates. -/
def setState (g : Int × Int → Dot) (p : Int × Int) (st : DotState) :
    Int × Int → Dot :=
  fun q => if q = p then ⟨(g q).column, (g q).row, st⟩ else g q

/-- A loop assigning the same state to a list of cells. -/
def markState (g : Int × Int → Dot) (ps : List (Int × Int)) (st : DotState) :
    Int × Int → Dot :=
  ps.foldl (fun g' p => setState g' p st) g

/-- The 3×3 block offsets produced by
`for i in range(-1, 2) for j in range(-1, 2)`. -/
def offsets : List (Int × Int) :=
  [(-1, -1), (-1, 0), (-1, 1), (0, -1), (0, 0), (0, 1), (1, -1), (1, 0), (1, 1)]

/-- `Board.contour`: union the 3×3 blocks of every occupied cell, remove the
ship's own occupied cells, then remove out-of-bounds coordinates.  The source
builds a Python set; only membership in the result is ever consumed, so the
list here may carry duplicates without observable difference. -/
def Board.contour (ship : Ship) : List (Int × Int) :=
  ((ship.get_dots.flatMap (fun d =>
      offsets.map (fun o => (d.1 + o.1, d.2 + o.2)))).filter
    (fun p => decide (p ∉ ship.get_dots))).filter (fun p => decide (inB p))

/-- The `occupied_dots` set built at the start of `Board.add_ship`: every
placed ship's occupied cells and contour cells. -/
def occupiedDots (b : Board) : List (Int × Int) :=
  b.ships_list.foldl (fun acc ship => acc ++ ship.get_dots ++ Board.contour ship) []

/-- `Board.add_ship`: reject (`placementError`) if any candidate cell meets
the occupied/contour union; otherwise consume one instance of the length from
`ship_length_list` and mark the cells, or reject (`placementError`) when the
length is absent. -/
def Board.add_ship (b : Board) (new_ship : Ship) : Except Err Unit × Board :=
  if new_ship.get_dots.any (fun d => decide (d ∈ occupiedDots b)) then
    (.error .placementError, b)
  else if decide (new_ship.length ∈ b.ship_length_list) then
    (.ok (), { b with
        ship_length_list := b.ship_length_list.erase new_ship.length
        ships_list := b.ships_list ++ [new_ship]
        grid := markState b.grid new_ship.get_dots .undamaged })
  else
    (.error .placementError, b)

/-- The `for i in self.ships_list` loop of `Board.shot` on an undamaged
target.  A hit ship's health is reduced (which can raise); on reaching zero
health its contour is marked missed and the ship is removed, and — because
Python's list iterator does not revisit indices after `list.remove` — the
element following the removed one is skipped (kept, unprocessed). -/
def shotLoop (coord : Int × Int) :
    (Int × Int → Dot) → List Ship → Except Err Unit × (Int × Int → Dot) × List Ship
  | g, [] => (.ok (), g, [])
  | g, s :: rest =>
    if decide (coord ∈ s.get_dots) then
      match s.reduce_health with
      | .error e => (.error e, g, s :: rest)
      | .ok s' =>
        if s'.health = 0 then
          let g' := markState g (Board.contour s') .missed
          match rest with
          | [] => (.ok (), g', [])
          | t :: rest' =>
            let r := shotLoop coord g' rest'
            (r.1, r.2.1, t :: r.2.2)
        else
          let r := shotLoop coord g rest
          (r.1, r.2.1, s' :: r.2.2)
    else
      let r := shotLoop coord g rest
      (r.1, r.2.1, s :: r.2.2)

/-- `Board.shot`: bounds check, then dispatch on the target cell's state.
An undamaged target is marked damaged before the fleet loop runs, so a raise
inside the loop leaves that mark behind.  The source's repeat-shot branch
condition `state == "damaged" or "missed"` is always truthy when reached
(the two remaining states there are exactly damaged and missed), so both
states raise `repeatShotError`. -/
def Board.shot (b : Board) (column row : Int) : Except Err Bool × Board :=
  if 1 ≤ column ∧ column ≤ 6 ∧ 1 ≤ row ∧ row ≤ 6 then
    match (b.grid (column, row)).state with
    | .undamaged =>
      let r := shotLoop (column, row) (setState b.grid (column, row) .damaged)
        b.ships_list
      (r.1.map (fun _ => true), { b with grid := r.2.1, ships_list := r.2.2 })
    | .hidden =>
      (.ok false, { b with grid := setState b.grid (column, row) .missed })
    | .damaged => (.error .repeatShotError, b)
    | .missed => (.error .repeatShotError, b)
  else
    (.error .boundsError, b)

/-- A ship as produced by the constructor with the default health: valid
length, health equal to length, and every derived cell on the board. -/
def ShipOK (s : Ship) : Prop :=
  1 ≤ s.length ∧ s.length ≤ 3 ∧ s.health = s.length ∧ ∀ p ∈ s.get_dots, inB p

instance : DecidablePred ShipOK := fun s => by
  unfold ShipOK; infer_instance

/-- Boards reachable from a fresh board through `add_ship` with
constructor-made ships (the only ships the game ever builds) and `shot`,
keeping the state an operation leaves behind whether it returns or raises. -/
inductive Reach : Board → Prop
  | init : Reach Board.init
  | place {b : Board} {s : Ship} {r : Except Err Unit} {b' : Board} :
      Reach b → ShipOK s → b.add_ship s = (r, b') → Reach b'
  | shoot {b : Board} {c r : Int} {res : Except Err Bool} {b' : Board} :
      Reach b → b.shot c r = (res, b') → Reach b'

/-- Boards reachable through successful placements only. -/
inductive ReachP : Board → Prop
  | init : ReachP Board.init
  | place {b : Board} {s : Ship} {b' : Board} :
      ReachP b → ShipOK s → b.add_ship s = (.ok (), b') → ReachP b'

/-- The occupied cells of a ship still in state undamaged, counted through
the grid. -/
def undamagedCount (g : Int × Int → Dot) (s : Ship) : Nat :=
  (s.get_dots.filter (fun p => decide ((g p).state = .undamaged))).length

/-- Separation of two placed ships: disjoint occupied cells and neither
ship's occupied cells inside the other's contour. -/
def ShipSep (s t : Ship) : Prop :=
  (∀ p ∈ s.get_dots, p ∉ t.get_dots) ∧
  (∀ p ∈ s.get_dots, p ∉ Board.contour t) ∧
  (∀ p ∈ t.get_dots, p ∉ Board.contour s)

/-- The board invariant maintained by the engine. -/
structure BoardInv (b : Board) : Prop where
  coords : ∀ p, (b.grid p).column = p.1 ∧ (b.grid p).row = p.2
  shipsOK : ∀ s ∈ b.ships_list,
    1 ≤ s.length ∧ s.length ≤ 3 ∧ ∀ p ∈ s.get_dots, inB p
  healthSync : ∀ s ∈ b.ships_list,
    s.health = (undamagedCount b.grid s : Int) ∧ 1 ≤ s.health
  sep : b.ships_list.Pairwise ShipSep
  owner : ∀ p, (b.grid p).state = .undamaged → ∃ s ∈ b.ships_list, p ∈ s.get_dots

/-! ### Basic lemmas about ships and the contour -/

theorem get_dots_eq_map (s : Ship) :
    s.get_dots = (List.range s.length.toNat).map (runCoord s.direction s.start_point) := by
  unfold Ship.get_dots runCoord
  rfl

theorem get_dots_health (s : Ship) (h : Int) :
    ({ s with health := h } : Ship).get_dots = s.get_dots := rfl

theorem contour_health (s : Ship) (h : Int) :
    Board.contour { s with health := h } = Board.contour s := rfl

theorem get_dots_nodup (s : Ship) : s.get_dots.Nodup := by
  obtain ⟨l, d, sp, h⟩ := s
  rw [get_dots_eq_map]
  refine List.Nodup.map ?_ (List.nodup_range _)
  intro i j hij
  cases d <;> simp only [runCoord, Prod.mk.injEq] at hij <;> omega

theorem mem_get_dots {s : Ship} {p : Int × Int} :
    p ∈ s.get_dots ↔ ∃ i < s.length.toNat, p = runCoord s.direction s.start_point i := by
  rw [get_dots_eq_map]
  simp only [List.mem_map, List.mem_range]
  constructor
  · rintro ⟨i, hi, rfl⟩; exact ⟨i, hi, rfl⟩
  · rintro ⟨i, hi, rfl⟩; exact ⟨i, hi, rfl⟩

theorem mem_contour {s : Ship} {p : Int × Int} :
    p ∈ Board.contour s ↔
      (∃ q ∈ s.get_dots, ∃ o ∈ offsets, p = (q.1 + o.1, q.2 + o.2)) ∧
        p ∉ s.get_dots ∧ inB p := by
  unfold Board.contour
  simp only [List.mem_filter, List.mem_flatMap, List.mem_map, decide_eq_true_eq]
  constructor
  · rintro ⟨⟨⟨q, hq, o, ho, rfl⟩, hnd⟩, hb⟩
    exact ⟨⟨q, hq, o, ho, rfl⟩, hnd, hb⟩
  · rintro ⟨⟨q, hq, o, ho, rfl⟩, hnd, hb⟩
    exact ⟨⟨⟨q, hq, o, ho, rfl⟩, hnd⟩, hb⟩

/-- Membership in the 3×3 offset block as an arithmetic neighborhood. -/
theorem offsets_near {p q : Int × Int} :
    (∃ o ∈ offsets, p = (q.1 + o.1, q.2 + o.2)) ↔
      q.1 - 1 ≤ p.1 ∧ p.1 ≤ q.1 + 1 ∧ q.2 - 1 ≤ p.2 ∧ p.2 ≤ q.2 + 1 := by
  constructor
  · rintro ⟨o, ho, rfl⟩
    fin_cases ho <;> simp <;> omega
  · rintro ⟨h1, h2, h3, h4⟩
    refine ⟨(p.1 - q.1, p.2 - q.2), ?_, ?_⟩
    · have hi1 : p.1 - q.1 = -1 ∨ p.1 - q.1 = 0 ∨ p.1 - q.1 = 1 := by omega
      have hi2 : p.2 - q.2 = -1 ∨ p.2 - q.2 = 0 ∨ p.2 - q.2 = 1 := by omega
      unfold offsets
      rcases hi1 with h | h | h <;> rcases hi2 with h' | h' | h' <;>
        simp [Prod.ext_iff, h, h']
    · rw [Prod.ext_iff]
      exact ⟨by omega, by omega⟩

theorem contour_not_dot {s : Ship} {p : Int × Int} (h : p ∈ Board.contour s) :
    p ∉ s.get_dots := (mem_contour.1 h).2.1

theorem contour_inB {s : Ship} {p : Int × Int} (h : p ∈ Board.contour s) : inB p :=
  (mem_contour.1 h).2.2

/-- The symmetric neighbor step used for the adjacency argument: if `p` is in
`t`'s contour witnessed by `q ∈ t.get_dots`, then `q` is in the 3×3 block of
`p` as well. -/
theorem near_symm {p q : Int × Int} (h : ∃ o ∈ offsets, p = (q.1 + o.1, q.2 + o.2)) :
    ∃ o ∈ offsets, q = (p.1 + o.1, p.2 + o.2) := by
  rw [offsets_near] at h ⊢
  omega

/-! ### Basic lemmas about grids -/

theorem setState_ne {g : Int × Int → Dot} {p q : Int × Int} {st : DotState}
    (h : q ≠ p) : setState g p st q = g q := by
  unfold setState
  simp [h]

theorem setState_self {g : Int × Int → Dot} {p : Int × Int} {st : DotState} :
    setState g p st p = ⟨(g p).column, (g p).row, st⟩ := by
  unfold setState
  simp

theorem setState_coords {g : Int × Int → Dot} {p q : Int × Int} {st : DotState} :
    (setState g p st q).column = (g q).column ∧ (setState g p st q).row = (g q).row := by
  unfold setState
  by_cases h : q = p <;> simp [h]

theorem markState_not_mem {ps : List (Int × Int)} {g : Int × Int → Dot}
    {st : DotState} {q : Int × Int} (h : q ∉ ps) : markState g ps st q = g q := by
  induction ps generalizing g with
  | nil => rfl
  | cons p ps ih =>
    have hq : q ≠ p := fun hh => h (by simp [hh])
    have : markState g (p :: ps) st = markState (setState g p st) ps st := rfl
    rw [this, ih (fun hh => h (by simp [hh])), setState_ne hq]

theorem markState_coords {l : List (Int × Int)} {g : Int × Int → Dot}
    {u : DotState} {q : Int × Int} :
    (markState g l u q).column = (g q).column ∧
      (markState g l u q).row = (g q).row := by
  induction l generalizing g with
  | nil => exact ⟨rfl, rfl⟩
  | cons p ps ih =>
    have : markState g (p :: ps) u = markState (setState g p u) ps u := rfl
    rw [this]
    exact ⟨(ih (g := setState g p u)).1.trans setState_coords.1,
      (ih (g := setState g p u)).2.trans setState_coords.2⟩

theorem markState_mem {ps : List (Int × Int)} {g : Int × Int → Dot}
    {st : DotState} {q : Int × Int} (h : q ∈ ps) :
    (markState g ps st q).state = st := by
  induction ps generalizing g with
  | nil => cases h
  | cons p ps ih =>
    have hstep : markState g (p :: ps) st = markState (setState g p st) ps st := rfl
    by_cases hq : q ∈ ps
    · rw [hstep]; exact ih hq
    · have hqp : q = p := by
        rcases List.mem_cons.1 h with h1 | h1
        · exact h1
        · exact absurd h1 hq
      rw [hstep, markState_not_mem hq, hqp, setState_self]

/-! ### The exclusion set and `add_ship` -/

theorem mem_occ_aux (l : List Ship) (init : List (Int × Int)) (p : Int × Int) :
    p ∈ l.foldl (fun acc ship => acc ++ ship.get_dots ++ Board.contour ship) init ↔
      p ∈ init ∨ ∃ s ∈ l, p ∈ s.get_dots ∨ p ∈ Board.contour s := by
  induction l generalizing init with
  | nil => simp
  | cons s ss ih =>
    rw [List.foldl_cons, ih]
    simp only [List.mem_append, List.mem_cons]
    constructor
    · rintro (((h | h) | h) | ⟨t, ht, h⟩)
      · exact Or.inl h
      · exact Or.inr ⟨s, Or.inl rfl, Or.inl h⟩
      · exact Or.inr ⟨s, Or.inl rfl, Or.inr h⟩
      · exact Or.inr ⟨t, Or.inr ht, h⟩
    · rintro (h | ⟨t, rfl | ht, h⟩)
      · exact Or.inl (Or.inl (Or.inl h))
      · rcases h with h | h
        · exact Or.inl (Or.inl (Or.inr h))
        · exact Or.inl (Or.inr h)
      · exact Or.inr ⟨t, ht, h⟩

theorem mem_occupiedDots {b : Board} {p : Int × Int} :
    p ∈ occupiedDots b ↔ ∃ s ∈ b.ships_list, p ∈ s.get_dots ∨ p ∈ Board.contour s := by
  unfold occupiedDots
  rw [mem_occ_aux]
  simp

/-- The record produced by a successful placement. -/
def placeBoard (b : Board) (s : Ship) : Board :=
  { b with
      ship_length_list := b.ship_length_list.erase s.length
      ships_list := b.ships_list ++ [s]
      grid := markState b.grid s.get_dots .undamaged }

theorem placeBoard_grid (b : Board) (s : Ship) :
    (placeBoard b s).grid = markState b.grid s.get_dots .undamaged := rfl

theorem placeBoard_ships (b : Board) (s : Ship) :
    (placeBoard b s).ships_list = b.ships_list ++ [s] := rfl

theorem placeBoard_lengths (b : Board) (s : Ship) :
    (placeBoard b s).ship_length_list = b.ship_length_list.erase s.length := rfl

theorem add_ship_excl {b : Board} {s : Ship}
    (h : ∃ p ∈ s.get_dots, p ∈ occupiedDots b) :
    b.add_ship s = (.error .placementError, b) := by
  unfold Board.add_ship
  have : s.get_dots.any (fun d => decide (d ∈ occupiedDots b)) = true := by
    rw [List.any_eq_true]
    rcases h with ⟨p, hp, hocc⟩
    exact ⟨p, hp, by simpa using hocc⟩
  rw [if_pos this]

theorem add_ship_no_len {b : Board} {s : Ship}
    (h1 : ¬ ∃ p ∈ s.get_dots, p ∈ occupiedDots b)
    (h2 : s.length ∉ b.ship_length_list) :
    b.add_ship s = (.error .placementError, b) := by
  unfold Board.add_ship
  have ha : s.get_dots.any (fun d => decide (d ∈ occupiedDots b)) = false := by
    rw [List.any_eq_false]
    intro p hp
    simp only [decide_eq_true_eq]
    exact fun hh => h1 ⟨p, hp, hh⟩
  rw [if_neg (by simp [ha]), if_neg (by simpa using h2)]

theorem add_ship_success {b : Board} {s : Ship}
    (h1 : ¬ ∃ p ∈ s.get_dots, p ∈ occupiedDots b)
    (h2 : s.length ∈ b.ship_length_list) :
    b.add_ship s = (.ok (), placeBoard b s) := by
  unfold Board.add_ship
  have ha : s.get_dots.any (fun d => decide (d ∈ occupiedDots b)) = false := by
    rw [List.any_eq_false]
    intro p hp
    simp only [decide_eq_true_eq]
    exact fun hh => h1 ⟨p, hp, hh⟩
  rw [if_neg (by simp [ha]), if_pos (by simpa using h2)]
  rfl

/-- Inversion of a successful placement. -/
theorem add_ship_ok_inv {b : Board} {s : Ship} {b' : Board}
    (h : b.add_ship s = (.ok (), b')) :
    (¬ ∃ p ∈ s.get_dots, p ∈ occupiedDots b) ∧ s.length ∈ b.ship_length_list ∧
      b' = placeBoard b s := by
  by_cases h1 : ∃ p ∈ s.get_dots, p ∈ occupiedDots b
  · rw [add_ship_excl h1] at h
    cases h
  by_cases h2 : s.length ∈ b.ship_length_list
  · rw [add_ship_success h1 h2] at h
    exact ⟨h1, h2, (congrArg Prod.snd h).symm⟩
  · rw [add_ship_no_len h1 h2] at h
    cases h

theorem add_ship_error_snd {b : Board} {s : Ship} {e : Err} {b' : Board}
    (h : b.add_ship s = (.error e, b')) : b' = b := by
  by_cases h1 : ∃ p ∈ s.get_dots, p ∈ occupiedDots b
  · rw [add_ship_excl h1] at h
    exact (congrArg Prod.snd h).symm
  by_cases h2 : s.length ∈ b.ship_length_list
  · rw [add_ship_success h1 h2] at h
    exact absurd (congrArg Prod.fst h) (by simp)
  · rw [add_ship_no_len h1 h2] at h
    exact (congrArg Prod.snd h).symm

/-! ### `mkDot` and `Ship.make` -/

theorem mkDot_ok {c r : Int} (h : inB (c, r)) : mkDot c r = .ok ⟨c, r, .hidden⟩ := by
  obtain ⟨h1, h2, h3, h4⟩ := h
  unfold mkDot
  rw [if_pos ⟨h1, h2⟩, if_pos ⟨h3, h4⟩]

theorem mkDot_err {c r : Int} (h : ¬ inB (c, r)) : mkDot c r = .error .boundsError := by
  unfold mkDot
  by_cases h1 : 1 ≤ c ∧ c ≤ 6
  · rw [if_pos h1, if_neg (fun h2 => h ⟨h1.1, h1.2, h2.1, h2.2⟩)]
  · rw [if_neg h1]

theorem exceptOk_mkDot {c r : Int} : exceptOk (mkDot c r) = true ↔ inB (c, r) := by
  by_cases h : inB (c, r)
  · rw [mkDot_ok h]
    simpa [exceptOk] using h
  · rw [mkDot_err h]
    simpa [exceptOk] using h

theorem make_ok_inv {l : Int} {d : Direction} {a : Dot} {s : Ship}
    (h : Ship.make l d a = .ok s) :
    s = ⟨l, d, a, l⟩ ∧ 1 ≤ l ∧ l ≤ 3 ∧ ∀ i < l.toNat, inB (runCoord d a i) := by
  unfold Ship.make at h
  by_cases h1 : 1 ≤ l ∧ l ≤ 3
  · rw [if_pos h1] at h
    by_cases h2 : (List.range l.toNat).all (fun i =>
        exceptOk (mkDot (runCoord d a i).1 (runCoord d a i).2)) = true
    · rw [if_pos h2] at h
      injection h with h
      refine ⟨h.symm, h1.1, h1.2, fun i hi => ?_⟩
      have := (List.all_eq_true.1 h2) i (List.mem_range.2 hi)
      simpa [exceptOk_mkDot] using this
    · rw [if_neg h2] at h
      cases h
  · rw [if_neg h1] at h
    cases h

theorem make_shipOK {l : Int} {d : Direction} {a : Dot} {s : Ship}
    (h : Ship.make l d a = .ok s) : ShipOK s := by
  obtain ⟨rfl, h1, h2, h3⟩ := make_ok_inv h
  refine ⟨h1, h2, rfl, fun p hp => ?_⟩
  rcases mem_get_dots.1 hp with ⟨i, hi, rfl⟩
  exact h3 i hi

/-! ### Ship separation -/

theorem shipSep_symm {s t : Ship} (h : ShipSep s t) : ShipSep t s :=
  ⟨fun p hpt hps => h.1 p hps hpt, h.2.2, h.2.1⟩

/-- A ship with at least one occupied cell is never separated from itself. -/
theorem shipSep_irrefl {s : Ship} (h : 1 ≤ s.length) : ¬ ShipSep s s := by
  intro hsep
  have hmem : runCoord s.direction s.start_point 0 ∈ s.get_dots :=
    mem_get_dots.2 ⟨0, by omega, rfl⟩
  exact hsep.1 _ hmem hmem

/-! ### The shot loop -/

theorem shotLoop_no_match {coord : Int × Int} {ships : List Ship}
    (h : ∀ s ∈ ships, coord ∉ s.get_dots) (g : Int × Int → Dot) :
    shotLoop coord g ships = (.ok (), g, ships) := by
  induction ships generalizing g with
  | nil => rfl
  | cons s rest ih =>
    have hs : coord ∉ s.get_dots := h s (by simp)
    rw [shotLoop, if_neg (by simpa using hs), ih (fun t ht => h t (by simp [ht]))]

/-- The shot loop when the unique ship holding the target has health 1:
the ship sinks, its contour is marked missed, and it leaves the fleet. -/
theorem shotLoop_sink {coord : Int × Int} {s : Ship} {l2 : List Ship}
    (hs : coord ∈ s.get_dots) (hl2 : ∀ t ∈ l2, coord ∉ t.get_dots)
    (hh : s.health = 1) :
    ∀ (l1 : List Ship), (∀ t ∈ l1, coord ∉ t.get_dots) → ∀ g,
      shotLoop coord g (l1 ++ s :: l2) =
        (.ok (), markState g (Board.contour s) .missed, l1 ++ l2) := by
  have hred : s.reduce_health = .ok { s with health := 0 } := by
    unfold Ship.reduce_health
    rw [if_pos (by omega), hh]
    norm_num
  intro l1
  induction l1 with
  | nil =>
    intro _ g
    rw [List.nil_append, List.nil_append, shotLoop, if_pos (by simpa using hs), hred]
    dsimp only
    rw [if_pos rfl, contour_health]
    cases l2 with
    | nil => rfl
    | cons t rest =>
      dsimp only
      rw [shotLoop_no_match (fun u hu => hl2 u (by simp [hu])) _]
  | cons a l1' ih =>
    intro h1 g
    have ha : coord ∉ a.get_dots := h1 a (by simp)
    rw [List.cons_append, shotLoop, if_neg (by simpa using ha),
      ih (fun t ht => h1 t (by simp [ht])) g]
    rfl

/-- The shot loop when the unique ship holding the target has health above 1:
only that ship's health drops. -/
theorem shotLoop_hit {coord : Int × Int} {s : Ship} {l2 : List Ship}
    (hs : coord ∈ s.get_dots) (hl2 : ∀ t ∈ l2, coord ∉ t.get_dots)
    (hh : 0 < s.health) (hh1 : s.health ≠ 1) :
    ∀ (l1 : List Ship), (∀ t ∈ l1, coord ∉ t.get_dots) → ∀ g,
      shotLoop coord g (l1 ++ s :: l2) =
        (.ok (), g, l1 ++ { s with health := s.health - 1 } :: l2) := by
  have hred : s.reduce_health = .ok { s with health := s.health - 1 } := by
    unfold Ship.reduce_health
    rw [if_pos hh]
  intro l1
  induction l1 with
  | nil =>
    intro _ g
    rw [List.nil_append, List.nil_append, shotLoop, if_pos (by simpa using hs), hred]
    dsimp only
    rw [if_neg (show ¬(s.health - 1 = 0) by omega), shotLoop_no_match hl2 g]
  | cons a l1' ih =>
    intro h1 g
    have ha : coord ∉ a.get_dots := h1 a (by simp)
    rw [List.cons_append, shotLoop, if_neg (by simpa using ha),
      ih (fun t ht => h1 t (by simp [ht])) g]
    rfl

/-! ### `shot` case analysis -/

theorem shot_oob {b : Board} {c r : Int} (h : ¬(1 ≤ c ∧ c ≤ 6 ∧ 1 ≤ r ∧ r ≤ 6)) :
    b.shot c r = (.error .boundsError, b) := by
  unfold Board.shot
  rw [if_neg h]

theorem shot_repeat {b : Board} {c r : Int} (hin : 1 ≤ c ∧ c ≤ 6 ∧ 1 ≤ r ∧ r ≤ 6)
    (h : (b.grid (c, r)).state = .damaged ∨ (b.grid (c, r)).state = .missed) :
    b.shot c r = (.error .repeatShotError, b) := by
  unfold Board.shot
  rw [if_pos hin]
  rcases h with h | h <;> rw [h]

theorem shot_miss {b : Board} {c r : Int} (hin : 1 ≤ c ∧ c ≤ 6 ∧ 1 ≤ r ∧ r ≤ 6)
    (h : (b.grid (c, r)).state = .hidden) :
    b.shot c r = (.ok false, { b with grid := setState b.grid (c, r) .missed }) := by
  unfold Board.shot
  rw [if_pos hin, h]

theorem shot_undamaged_eq {b : Board} {c r : Int}
    (hin : 1 ≤ c ∧ c ≤ 6 ∧ 1 ≤ r ∧ r ≤ 6)
    (h : (b.grid (c, r)).state = .undamaged) :
    b.shot c r =
      ((shotLoop (c, r) (setState b.grid (c, r) .damaged) b.ships_list).1.map
          (fun _ => true),
        { b with
            grid := (shotLoop (c, r) (setState b.grid (c, r) .damaged) b.ships_list).2.1
            ships_list :=
              (shotLoop (c, r) (setState b.grid (c, r) .damaged) b.ships_list).2.2 }) := by
  unfold Board.shot
  rw [if_pos hin, h]

/-- Under the invariant, an undamaged cell determines a unique owning ship and
a position of it in the fleet list. -/
theorem inv_owner_split {b : Board} (hb : BoardInv b) {p : Int × Int}
    (hp : (b.grid p).state = .undamaged) :
    ∃ l1 s l2, b.ships_list = l1 ++ s :: l2 ∧ p ∈ s.get_dots ∧
      (∀ t ∈ l1, p ∉ t.get_dots) ∧ (∀ t ∈ l2, p ∉ t.get_dots) ∧
      0 < s.health ∧ s.health = (undamagedCount b.grid s : Int) := by
  obtain ⟨s, hs, hps⟩ := hb.owner p hp
  obtain ⟨l1, l2, hsplit⟩ := List.append_of_mem hs
  have hsep := hb.sep
  rw [hsplit] at hsep
  obtain ⟨hp1, hp2, hp12⟩ := List.pairwise_append.1 hsep
  obtain ⟨hs2, -⟩ := List.pairwise_cons.1 hp2
  obtain ⟨hsync, hpos⟩ := hb.healthSync s hs
  refine ⟨l1, s, l2, hsplit, hps, ?_, ?_, by omega, hsync⟩
  · intro t ht hpt
    exact (hp12 t ht s (by simp)).1 p hpt hps
  · intro t ht hpt
    exact (hs2 t ht).1 p hps hpt

/-! ### Counting undamaged cells -/

theorem undamagedCount_congr {g g' : Int × Int → Dot} {s : Ship}
    (h : ∀ p ∈ s.get_dots, (g' p).state = (g p).state) :
    undamagedCount g' s = undamagedCount g s := by
  unfold undamagedCount
  apply congrArg List.length
  apply List.filter_congr
  intro p hp
  rw [h p hp]

theorem length_get_dots (s : Ship) : s.get_dots.length = s.length.toNat := by
  rw [get_dots_eq_map, List.length_map, List.length_range]

theorem count_all_undamaged {g : Int × Int → Dot} {s : Ship}
    (h : ∀ p ∈ s.get_dots, (g p).state = .undamaged) :
    undamagedCount g s = s.get_dots.length := by
  unfold undamagedCount
  rw [List.filter_eq_self.2 (fun p hp => by simpa using h p hp)]

theorem undamagedCount_set {g : Int × Int → Dot} {s : Ship} {p : Int × Int}
    (hp : p ∈ s.get_dots) (hu : (g p).state = .undamaged) {u : DotState}
    (hst : ¬ u = .undamaged) :
    undamagedCount (setState g p u) s + 1 = undamagedCount g s := by
  obtain ⟨la, lb, hsplit⟩ := List.append_of_mem hp
  have hnd := get_dots_nodup s
  rw [hsplit] at hnd
  obtain ⟨hnla, hnplb, hdisj⟩ := List.nodup_append.1 hnd
  have hpla : p ∉ la := fun hpl => hdisj hpl (by simp)
  have hplb : p ∉ lb := (List.nodup_cons.1 hnplb).1
  have hla : List.filter (fun q => decide ((setState g p u q).state = .undamaged)) la
      = List.filter (fun q => decide ((g q).state = .undamaged)) la := by
    apply List.filter_congr
    intro q hq
    rw [setState_ne (by rintro rfl; exact hpla hq)]
  have hlb : List.filter (fun q => decide ((setState g p u q).state = .undamaged)) lb
      = List.filter (fun q => decide ((g q).state = .undamaged)) lb := by
    apply List.filter_congr
    intro q hq
    rw [setState_ne (by rintro rfl; exact hplb hq)]
  unfold undamagedCount
  rw [hsplit]
  simp only [List.filter_append, List.filter_cons, hla, hlb, setState_self, hu]
  simp [hst, List.length_append]
  omega

/-! ### Preservation of the invariant -/

theorem inv_init : BoardInv Board.init := by
  constructor
  · intro p
    exact ⟨rfl, rfl⟩
  · intro s hs
    cases hs
  · intro s hs
    cases hs
  · exact List.Pairwise.nil
  · intro p hp
    cases hp

theorem inv_place {b : Board} (hb : BoardInv b) {s : Ship} (hOK : ShipOK s)
    {b' : Board} (h : b.add_ship s = (.ok (), b')) : BoardInv b' := by
  obtain ⟨hexcl, hlen, rfl⟩ := add_ship_ok_inv h
  have hnotocc : ∀ p ∈ s.get_dots, p ∉ occupiedDots b :=
    fun p hp hocc => hexcl ⟨p, hp, hocc⟩
  obtain ⟨hl1, hl3, hhl, hinBs⟩ := hOK
  have hdisj : ∀ t ∈ b.ships_list, ∀ p ∈ t.get_dots, p ∉ s.get_dots :=
    fun t ht p hpt hps => hnotocc p hps (mem_occupiedDots.2 ⟨t, ht, Or.inl hpt⟩)
  constructor
  · intro p
    have hc := markState_coords (l := s.get_dots) (g := b.grid)
      (u := DotState.undamaged) (q := p)
    exact ⟨hc.1.trans (hb.coords p).1, hc.2.trans (hb.coords p).2⟩
  · intro t ht
    rw [placeBoard_ships] at ht
    rcases List.mem_append.1 ht with ht | ht
    · exact hb.shipsOK t ht
    · obtain rfl : t = s := by simpa using ht
      exact ⟨hl1, hl3, hinBs⟩
  · intro t ht
    rw [placeBoard_ships] at ht
    rcases List.mem_append.1 ht with ht | ht
    · have hsync := hb.healthSync t ht
      have hcount : undamagedCount (markState b.grid s.get_dots .undamaged) t
          = undamagedCount b.grid t := by
        apply undamagedCount_congr
        intro p hpt
        rw [markState_not_mem (hdisj t ht p hpt)]
      rw [placeBoard_grid, hcount]
      exact hsync
    · obtain rfl : t = s := by simpa using ht
      have hcnt : undamagedCount (markState b.grid t.get_dots .undamaged) t
          = t.get_dots.length := by
        apply count_all_undamaged
        intro p hpt
        exact markState_mem hpt
      constructor
      · rw [placeBoard_grid, hcnt, length_get_dots, hhl]
        omega
      · omega
  · rw [placeBoard_ships]
    refine List.pairwise_append.2 ⟨hb.sep, by simp, ?_⟩
    intro t ht u hu
    obtain rfl : u = s := by simpa using hu
    refine ⟨fun p hpt hps => hdisj t ht p hpt hps, ?_, ?_⟩
    · intro p hpt hpc
      obtain ⟨⟨q, hq, hex⟩, hpnd, hpb⟩ := mem_contour.1 hpc
      by_cases hqt : q ∈ t.get_dots
      · exact hnotocc q hq (mem_occupiedDots.2 ⟨t, ht, Or.inl hqt⟩)
      · have hqc : q ∈ Board.contour t :=
          mem_contour.2 ⟨⟨p, hpt, near_symm hex⟩, hqt, hinBs q hq⟩
        exact hnotocc q hq (mem_occupiedDots.2 ⟨t, ht, Or.inr hqc⟩)
    · intro p hps hpc
      exact hnotocc p hps (mem_occupiedDots.2 ⟨t, ht, Or.inr hpc⟩)
  · intro p hp
    by_cases hpm : p ∈ s.get_dots
    · exact ⟨s, by rw [placeBoard_ships]; exact List.mem_append_right _ (by simp), hpm⟩
    · rw [placeBoard_grid, markState_not_mem hpm] at hp
      obtain ⟨t, ht, hpt⟩ := hb.owner p hp
      refine ⟨t, ?_, hpt⟩
      rw [placeBoard_ships]
      exact List.mem_append_left _ ht

theorem undamagedCount_congr_iff {g g' : Int × Int → Dot} {s : Ship}
    (h : ∀ p ∈ s.get_dots,
      ((g' p).state = .undamaged ↔ (g p).state = .undamaged)) :
    undamagedCount g' s = undamagedCount g s := by
  unfold undamagedCount
  apply congrArg List.length
  apply List.filter_congr
  intro p hp
  exact decide_eq_decide.2 (h p hp)

theorem undamagedCount_health (g : Int × Int → Dot) (s : Ship) (h : Int) :
    undamagedCount g { s with health := h } = undamagedCount g s := rfl

theorem shipSep_health_left (s t : Ship) (h : Int) :
    ShipSep { s with health := h } t ↔ ShipSep s t := Iff.rfl

theorem shipSep_health_right (s t : Ship) (h : Int) :
    ShipSep t { s with health := h } ↔ ShipSep t s := Iff.rfl

/-- Two distinct undamaged occupied cells force a count of at least two. -/
theorem two_le_undamagedCount {g : Int × Int → Dot} {s : Ship} {p q : Int × Int}
    (hp : p ∈ s.get_dots) (hpu : (g p).state = .undamaged)
    (hq : q ∈ s.get_dots) (hqu : (g q).state = .undamaged) (hne : p ≠ q) :
    2 ≤ undamagedCount g s := by
  have hpf : p ∈ s.get_dots.filter (fun x => decide ((g x).state = .undamaged)) :=
    List.mem_filter.2 ⟨hp, by simpa using hpu⟩
  have hqf : q ∈ s.get_dots.filter (fun x => decide ((g x).state = .undamaged)) :=
    List.mem_filter.2 ⟨hq, by simpa using hqu⟩
  obtain ⟨la, lb, hsplit⟩ := List.append_of_mem hpf
  unfold undamagedCount
  rw [hsplit] at hqf ⊢
  rcases List.mem_append.1 hqf with hql | hq2
  · have : 1 ≤ la.length := List.length_pos.2 (fun he => by simp [he] at hql)
    simp [List.length_append]
    omega
  · rcases List.mem_cons.1 hq2 with h' | hql
    · exact absurd h'.symm hne
    · have : 1 ≤ lb.length := List.length_pos.2 (fun he => by simp [he] at hql)
      simp [List.length_append]
      omega

/-- Full description of a shot on an undamaged cell of an invariant-satisfying
board: the unique owner is hit; with health 1 it sinks (contour marked missed,
ship removed), otherwise only its health drops.  Either way the outcome is a
hit (`True` in the source). -/
theorem shot_undamaged_result {b : Board} (hb : BoardInv b) {c r : Int}
    (hin : 1 ≤ c ∧ c ≤ 6 ∧ 1 ≤ r ∧ r ≤ 6)
    (hu : (b.grid (c, r)).state = .undamaged) :
    ∃ l1 s l2, b.ships_list = l1 ++ s :: l2 ∧ (c, r) ∈ s.get_dots ∧
      (∀ t ∈ l1, (c, r) ∉ t.get_dots) ∧ (∀ t ∈ l2, (c, r) ∉ t.get_dots) ∧
      0 < s.health ∧ s.health = (undamagedCount b.grid s : Int) ∧
      ((s.health = 1 ∧
        b.shot c r = (.ok true,
          { b with
              grid := markState (setState b.grid (c, r) .damaged)
                (Board.contour s) .missed
              ships_list := l1 ++ l2 })) ∨
       (s.health ≠ 1 ∧
        b.shot c r = (.ok true,
          { b with
              grid := setState b.grid (c, r) .damaged
              ships_list := l1 ++ { s with health := s.health - 1 } :: l2 }))) := by
  obtain ⟨l1, s, l2, hsplit, hs, hl1, hl2, hpos, hsync⟩ := inv_owner_split hb hu
  refine ⟨l1, s, l2, hsplit, hs, hl1, hl2, hpos, hsync, ?_⟩
  have heq := shot_undamaged_eq hin hu
  rw [hsplit] at heq
  by_cases h1 : s.health = 1
  · rw [shotLoop_sink hs hl2 h1 l1 hl1 _] at heq
    exact Or.inl ⟨h1, heq⟩
  · rw [shotLoop_hit hs hl2 hpos h1 l1 hl1 _] at heq
    exact Or.inr ⟨h1, heq⟩

theorem inv_miss {b : Board} (hb : BoardInv b) {c r : Int}
    (hst : (b.grid (c, r)).state = .hidden) :
    BoardInv { b with grid := setState b.grid (c, r) .missed } := by
  constructor
  · intro p
    exact ⟨setState_coords.1.trans (hb.coords p).1,
      setState_coords.2.trans (hb.coords p).2⟩
  · exact hb.shipsOK
  · intro t ht
    have hcnt : undamagedCount (setState b.grid (c, r) .missed) t
        = undamagedCount b.grid t := by
      apply undamagedCount_congr_iff
      intro p hp
      by_cases hpc : p = (c, r)
      · subst hpc
        rw [setState_self, hst]
        simp
      · rw [setState_ne hpc]
    exact hcnt ▸ hb.healthSync t ht
  · exact hb.sep
  · intro p hp
    dsimp only at hp ⊢
    by_cases hpc : p = (c, r)
    · subst hpc
      rw [setState_self] at hp
      cases hp
    · rw [setState_ne hpc] at hp
      exact hb.owner p hp

theorem mem_of_mem_removed {l1 l2 : List Ship} {s t : Ship}
    (ht : t ∈ l1 ++ l2) : t ∈ l1 ++ s :: l2 := by
  rcases List.mem_append.1 ht with h | h
  · exact List.mem_append_left _ h
  · exact List.mem_append_right _ (List.mem_cons_of_mem _ h)

theorem inv_sink {b : Board} (hb : BoardInv b) {c r : Int} {l1 l2 : List Ship}
    {s : Ship} (hsplit : b.ships_list = l1 ++ s :: l2) (hs : (c, r) ∈ s.get_dots)
    (hl1 : ∀ t ∈ l1, (c, r) ∉ t.get_dots) (hl2 : ∀ t ∈ l2, (c, r) ∉ t.get_dots)
    (hu : (b.grid (c, r)).state = .undamaged) (h1 : s.health = 1)
    (hsync : s.health = (undamagedCount b.grid s : Int)) :
    BoardInv { b with
        grid := markState (setState b.grid (c, r) .damaged) (Board.contour s) .missed
        ships_list := l1 ++ l2 } := by
  have hsep := hb.sep
  rw [hsplit] at hsep
  obtain ⟨hp1, hp2, hp12⟩ := List.pairwise_append.1 hsep
  obtain ⟨hs2, hpl2⟩ := List.pairwise_cons.1 hp2
  -- cells of surviving ships are untouched
  have huntouched : ∀ t, t ∈ l1 ++ l2 → ∀ p ∈ t.get_dots,
      markState (setState b.grid (c, r) .damaged) (Board.contour s) .missed p
        = b.grid p := by
    intro t ht p hpt
    have hpnc : p ∉ Board.contour s := by
      rcases List.mem_append.1 ht with h | h
      · exact (hp12 t h s (by simp)).2.1 p hpt
      · exact (hs2 t h).2.2 p hpt
    have hpcr : p ≠ (c, r) := by
      rcases List.mem_append.1 ht with h | h
      · intro hpe
        exact hl1 t h (hpe ▸ hpt)
      · intro hpe
        exact hl2 t h (hpe ▸ hpt)
    rw [markState_not_mem hpnc, setState_ne hpcr]
  have hmem : ∀ t, t ∈ l1 ++ l2 → t ∈ b.ships_list := by
    intro t ht
    rw [hsplit]
    exact mem_of_mem_removed ht
  constructor
  · intro p
    have h1c := markState_coords (l := Board.contour s)
      (g := setState b.grid (c, r) .damaged) (u := DotState.missed) (q := p)
    exact ⟨h1c.1.trans (setState_coords.1.trans (hb.coords p).1),
      h1c.2.trans (setState_coords.2.trans (hb.coords p).2)⟩
  · intro t ht
    exact hb.shipsOK t (hmem t ht)
  · intro t ht
    have hcnt : undamagedCount
        (markState (setState b.grid (c, r) .damaged) (Board.contour s) .missed) t
        = undamagedCount b.grid t :=
      undamagedCount_congr (fun p hp => by rw [huntouched t ht p hp])
    exact hcnt ▸ hb.healthSync t (hmem t ht)
  · have hsub : (l1 ++ l2).Sublist (l1 ++ s :: l2) :=
      List.Sublist.append_left (List.sublist_cons_self _ _) l1
    exact (hsplit ▸ hb.sep).sublist hsub
  · intro p hp
    dsimp only at hp ⊢
    by_cases hpc : p ∈ Board.contour s
    · rw [markState_mem hpc] at hp
      cases hp
    · rw [markState_not_mem hpc] at hp
      by_cases hpcr : p = (c, r)
      · subst hpcr
        rw [setState_self] at hp
        cases hp
      · rw [setState_ne hpcr] at hp
        obtain ⟨t, ht, hpt⟩ := hb.owner p hp
        rw [hsplit] at ht
        rcases List.mem_append.1 ht with h | h
        · exact ⟨t, List.mem_append_left _ h, hpt⟩
        · rcases List.mem_cons.1 h with rfl | h
          · exfalso
            have h2 := two_le_undamagedCount hpt hp hs hu hpcr
            omega
          · exact ⟨t, List.mem_append_right _ h, hpt⟩

theorem inv_hit {b : Board} (hb : BoardInv b) {c r : Int} {l1 l2 : List Ship}
    {s : Ship} (hsplit : b.ships_list = l1 ++ s :: l2) (hs : (c, r) ∈ s.get_dots)
    (hl1 : ∀ t ∈ l1, (c, r) ∉ t.get_dots) (hl2 : ∀ t ∈ l2, (c, r) ∉ t.get_dots)
    (hu : (b.grid (c, r)).state = .undamaged) (h1 : s.health ≠ 1)
    (hpos : 0 < s.health) (hsync : s.health = (undamagedCount b.grid s : Int)) :
    BoardInv { b with
        grid := setState b.grid (c, r) .damaged
        ships_list := l1 ++ { s with health := s.health - 1 } :: l2 } := by
  have hsep := hb.sep
  rw [hsplit] at hsep
  obtain ⟨hp1, hp2, hp12⟩ := List.pairwise_append.1 hsep
  obtain ⟨hs2, hpl2⟩ := List.pairwise_cons.1 hp2
  have hsmem : s ∈ b.ships_list := by
    rw [hsplit]
    exact List.mem_append_right _ (by simp)
  have huntouched : ∀ t, t ∈ l1 ++ l2 → ∀ p ∈ t.get_dots,
      setState b.grid (c, r) .damaged p = b.grid p := by
    intro t ht p hpt
    refine setState_ne ?_
    rcases List.mem_append.1 ht with h | h
    · intro hpe
      exact hl1 t h (hpe ▸ hpt)
    · intro hpe
      exact hl2 t h (hpe ▸ hpt)
  constructor
  · intro p
    exact ⟨setState_coords.1.trans (hb.coords p).1,
      setState_coords.2.trans (hb.coords p).2⟩
  · intro t ht
    rcases List.mem_append.1 ht with h | h
    · exact hb.shipsOK t (by rw [hsplit]; exact List.mem_append_left _ h)
    · rcases List.mem_cons.1 h with rfl | h
      · exact hb.shipsOK s hsmem
      · exact hb.shipsOK t
          (by rw [hsplit]; exact List.mem_append_right _ (List.mem_cons_of_mem _ h))
  · intro t ht
    rcases List.mem_append.1 ht with h | h
    · have hcnt : undamagedCount (setState b.grid (c, r) .damaged) t
          = undamagedCount b.grid t :=
        undamagedCount_congr (fun p hp =>
          by rw [huntouched t (List.mem_append_left _ h) p hp])
      exact hcnt ▸ hb.healthSync t
        (by rw [hsplit]; exact List.mem_append_left _ h)
    · rcases List.mem_cons.1 h with rfl | h
      · obtain ⟨hsy, hpos2⟩ := hb.healthSync s hsmem
        have hcnt := undamagedCount_set hs hu
          (u := DotState.damaged) (by simp)
        rw [undamagedCount_health]
        refine ⟨?_, ?_⟩
        · show s.health - 1
            = ((undamagedCount (setState b.grid (c, r) .damaged) s : Nat) : Int)
          omega
        · show (1 : Int) ≤ s.health - 1
          omega
      · have hcnt : undamagedCount (setState b.grid (c, r) .damaged) t
            = undamagedCount b.grid t :=
          undamagedCount_congr (fun p hp =>
            by rw [huntouched t (List.mem_append_right _ h) p hp])
        exact hcnt ▸ hb.healthSync t
          (by rw [hsplit]; exact List.mem_append_right _ (List.mem_cons_of_mem _ h))
  · refine List.pairwise_append.2 ⟨hp1, ?_, ?_⟩
    · refine List.pairwise_cons.2 ⟨?_, hpl2⟩
      intro t ht
      exact (shipSep_health_left s t _).2 (hs2 t ht)
    · intro a ha x hx
      rcases List.mem_cons.1 hx with rfl | hx
      · exact (shipSep_health_right s a _).2 (hp12 a ha s (by simp))
      · exact hp12 a ha x (List.mem_cons_of_mem _ hx)
  · intro p hp
    dsimp only at hp ⊢
    by_cases hpcr : p = (c, r)
    · subst hpcr
      rw [setState_self] at hp
      cases hp
    · rw [setState_ne hpcr] at hp
      obtain ⟨t, ht, hpt⟩ := hb.owner p hp
      rw [hsplit] at ht
      rcases List.mem_append.1 ht with h | h
      · exact ⟨t, List.mem_append_left _ h, hpt⟩
      · rcases List.mem_cons.1 h with rfl | h
        · exact ⟨{ t with health := t.health - 1 },
            List.mem_append_right _ (by simp), hpt⟩
        · exact ⟨t, List.mem_append_right _ (List.mem_cons_of_mem _ h), hpt⟩

theorem inv_shot {b : Board} (hb : BoardInv b) {c r : Int}
    {res : Except Err Bool} {b' : Board} (h : b.shot c r = (res, b')) :
    BoardInv b' := by
  by_cases hin : 1 ≤ c ∧ c ≤ 6 ∧ 1 ≤ r ∧ r ≤ 6
  · cases hst : (b.grid (c, r)).state with
    | undamaged =>
      obtain ⟨l1, s, l2, hsplit, hs, hl1, hl2, hpos, hsync, hcase⟩ :=
        shot_undamaged_result hb hin hst
      rcases hcase with ⟨h1, heq⟩ | ⟨h1, heq⟩
      · rw [heq] at h
        obtain rfl : b' = _ := (congrArg Prod.snd h).symm
        exact inv_sink hb hsplit hs hl1 hl2 hst h1 hsync
      · rw [heq] at h
        obtain rfl : b' = _ := (congrArg Prod.snd h).symm
        exact inv_hit hb hsplit hs hl1 hl2 hst h1 hpos hsync
    | hidden =>
      rw [shot_miss hin hst] at h
      obtain rfl : b' = _ := (congrArg Prod.snd h).symm
      exact inv_miss hb hst
    | damaged =>
      rw [shot_repeat hin (Or.inl hst)] at h
      obtain rfl : b' = b := (congrArg Prod.snd h).symm
      exact hb
    | missed =>
      rw [shot_repeat hin (Or.inr hst)] at h
      obtain rfl : b' = b := (congrArg Prod.snd h).symm
      exact hb
  · rw [shot_oob hin] at h
    obtain rfl : b' = b := (congrArg Prod.snd h).symm
    exact hb

theorem inv_place_any {b : Board} (hb : BoardInv b) {s : Ship} (hOK : ShipOK s)
    {res : Except Err Unit} {b' : Board} (h : b.add_ship s = (res, b')) :
    BoardInv b' := by
  cases res with
  | ok u =>
    cases u
    exact inv_place hb hOK h
  | error e =>
    obtain rfl : b' = b := add_ship_error_snd h
    exact hb

/-- Every reachable board satisfies the invariant. -/
theorem inv_reach {b : Board} (h : Reach b) : BoardInv b := by
  induction h with
  | init => exact inv_init
  | place _ hOK hstep ih => exact inv_place_any ih hOK hstep
  | shoot _ hstep ih => exact inv_shot ih hstep

/-! ### Facts about placement-only reachability -/

theorem reachP_reach {b : Board} (h : ReachP b) : Reach b := by
  induction h with
  | init => exact Reach.init
  | place hb hOK hstep ih => exact Reach.place ih hOK hstep

theorem reachP_count {b : Board} (h : ReachP b) :
    b.ship_length_list.length + b.ships_list.length = 7 := by
  induction h with
  | init => rfl
  | place hb hOK hstep ih =>
    rename_i b₀ s b₁
    obtain ⟨hexcl, hlen, rfl⟩ := add_ship_ok_inv hstep
    rw [placeBoard_lengths, placeBoard_ships, List.length_erase_of_mem hlen,
      List.length_append]
    have : 1 ≤ b₀.ship_length_list.length := List.length_pos.2 (fun he => by
      rw [he] at hlen
      cases hlen)
    simp only [List.length_cons, List.length_nil]
    omega

theorem reachP_cells {b : Board} (h : ReachP b) :
    ∀ p, (b.grid p).state = .hidden ∨ (b.grid p).state = .undamaged := by
  induction h with
  | init => intro p; exact Or.inl rfl
  | place hb hOK hstep ih =>
    rename_i b₀ s b₁
    obtain ⟨hexcl, hlen, rfl⟩ := add_ship_ok_inv hstep
    intro p
    rw [placeBoard_grid]
    by_cases hp : p ∈ s.get_dots
    · exact Or.inr (markState_mem hp)
    · rw [markState_not_mem hp]
      exact ih p

/-! ### Error behaviour of `shot` under the invariant -/

theorem shot_error_inv {b : Board} (hb : BoardInv b) {c r : Int} {e : Err}
    {b' : Board} (h : b.shot c r = (.error e, b')) :
    b' = b ∧ (e = .boundsError ∨ e = .repeatShotError) := by
  by_cases hin : 1 ≤ c ∧ c ≤ 6 ∧ 1 ≤ r ∧ r ≤ 6
  · cases hst : (b.grid (c, r)).state with
    | undamaged =>
      obtain ⟨l1, s, l2, hsplit, hs, hl1, hl2, hpos, hsync, hcase⟩ :=
        shot_undamaged_result hb hin hst
      rcases hcase with ⟨h1, heq⟩ | ⟨h1, heq⟩ <;>
      · rw [heq] at h
        exact absurd (congrArg Prod.fst h) (by simp)
    | hidden =>
      rw [shot_miss hin hst] at h
      exact absurd (congrArg Prod.fst h) (by simp)
    | damaged =>
      rw [shot_repeat hin (Or.inl hst)] at h
      obtain ⟨he, rfl⟩ : Except.error Err.repeatShotError = Except.error e ∧ b = b' :=
        Prod.mk.injEq .. ▸ h
      exact ⟨rfl, Or.inr (by injection he with he; exact he.symm)⟩
    | missed =>
      rw [shot_repeat hin (Or.inr hst)] at h
      obtain ⟨he, rfl⟩ : Except.error Err.repeatShotError = Except.error e ∧ b = b' :=
        Prod.mk.injEq .. ▸ h
      exact ⟨rfl, Or.inr (by injection he with he; exact he.symm)⟩
  · rw [shot_oob hin] at h
    obtain ⟨he, rfl⟩ : Except.error Err.boundsError = Except.error e ∧ b = b' :=
      Prod.mk.injEq .. ▸ h
    exact ⟨rfl, Or.inl (by injection he with he; exact he.symm)⟩

/-! ### Shots only write the states damaged and missed -/

/-- `g'` differs from `g` only by cells rewritten to damaged or missed, and
coordinates are untouched. -/
def GridLe (g g' : Int × Int → Dot) : Prop :=
  ∀ p, ((g' p).state = (g p).state ∨ (g' p).state = .damaged ∨
      (g' p).state = .missed) ∧
    (g' p).column = (g p).column ∧ (g' p).row = (g p).row

theorem gridLe_refl (g : Int × Int → Dot) : GridLe g g :=
  fun _ => ⟨Or.inl rfl, rfl, rfl⟩

theorem gridLe_trans {g1 g2 g3 : Int × Int → Dot}
    (h12 : GridLe g1 g2) (h23 : GridLe g2 g3) : GridLe g1 g3 := by
  intro p
  obtain ⟨hs12, hc12, hr12⟩ := h12 p
  obtain ⟨hs23, hc23, hr23⟩ := h23 p
  refine ⟨?_, hc23.trans hc12, hr23.trans hr12⟩
  rcases hs23 with h | h | h
  · rw [h]
    exact hs12
  · exact Or.inr (Or.inl h)
  · exact Or.inr (Or.inr h)

theorem gridLe_set {g : Int × Int → Dot} {q : Int × Int} {st : DotState}
    (hst : st = .damaged ∨ st = .missed) : GridLe g (setState g q st) := by
  intro p
  refine ⟨?_, setState_coords.1, setState_coords.2⟩
  by_cases hpq : p = q
  · subst hpq
    rw [setState_self]
    exact Or.inr hst
  · rw [setState_ne hpq]
    exact Or.inl rfl

theorem gridLe_mark {g : Int × Int → Dot} {l : List (Int × Int)} {u : DotState}
    (hst : u = .damaged ∨ u = .missed) : GridLe g (markState g l u) := by
  intro p
  refine ⟨?_, markState_coords.1, markState_coords.2⟩
  by_cases hp : p ∈ l
  · rw [markState_mem hp]
    exact Or.inr hst
  · rw [markState_not_mem hp]
    exact Or.inl rfl

theorem shotLoop_gridLe (coord : Int × Int) :
    ∀ (n : Nat) (ships : List Ship), ships.length ≤ n →
      ∀ g, GridLe g (shotLoop coord g ships).2.1 := by
  intro n
  induction n with
  | zero =>
    intro ships hlen g
    obtain rfl : ships = [] := List.length_eq_zero.1 (Nat.le_zero.1 hlen)
    exact gridLe_refl g
  | succ n ih =>
    intro ships hlen g
    cases ships with
    | nil => exact gridLe_refl g
    | cons s rest =>
      rw [shotLoop]
      by_cases hc : coord ∈ s.get_dots
      · rw [if_pos (by simpa using hc)]
        cases hred : s.reduce_health with
        | error e => exact gridLe_refl g
        | ok s' =>
          dsimp only
          by_cases hh0 : s'.health = 0
          · rw [if_pos hh0]
            cases rest with
            | nil => exact gridLe_mark (Or.inr rfl)
            | cons t rest' =>
              dsimp only
              exact gridLe_trans (gridLe_mark (l := Board.contour s') (Or.inr rfl))
                (ih rest' (by simp at hlen ⊢; omega) _)
          · rw [if_neg hh0]
            dsimp only
            exact ih rest (by simp at hlen ⊢; omega) g
      · rw [if_neg (by simpa using hc)]
        dsimp only
        exact ih rest (by simp at hlen ⊢; omega) g

/-- Any `shot`, successful or failing, only turns cells damaged or missed and
never moves a cell. -/
theorem shot_gridLe {b : Board} {c r : Int} {res : Except Err Bool} {b' : Board}
    (h : b.shot c r = (res, b')) : GridLe b.grid b'.grid := by
  by_cases hin : 1 ≤ c ∧ c ≤ 6 ∧ 1 ≤ r ∧ r ≤ 6
  · cases hst : (b.grid (c, r)).state with
    | undamaged =>
      rw [shot_undamaged_eq hin hst] at h
      obtain rfl : b' = _ := (congrArg Prod.snd h).symm
      exact gridLe_trans (gridLe_set (Or.inl rfl))
        (shotLoop_gridLe (c, r) b.ships_list.length b.ships_list le_rfl _)
    | hidden =>
      rw [shot_miss hin hst] at h
      obtain rfl : b' = _ := (congrArg Prod.snd h).symm
      exact gridLe_set (Or.inr rfl)
    | damaged =>
      rw [shot_repeat hin (Or.inl hst)] at h
      obtain rfl : b' = b := (congrArg Prod.snd h).symm
      exact gridLe_refl _
    | missed =>
      rw [shot_repeat hin (Or.inr hst)] at h
      obtain rfl : b' = b := (congrArg Prod.snd h).symm
      exact gridLe_refl _
  · rw [shot_oob hin] at h
    obtain rfl : b' = b := (congrArg Prod.snd h).symm
    exact gridLe_refl _

/-- Any `add_ship` only rewrites cells to undamaged and never moves a cell. -/
theorem add_ship_grid_cases {b : Board} {s : Ship} {res : Except Err Unit}
    {b' : Board} (h : b.add_ship s = (res, b')) :
    ∀ p, ((b'.grid p).state = (b.grid p).state ∨ (b'.grid p).state = .undamaged) ∧
      (b'.grid p).column = (b.grid p).column ∧ (b'.grid p).row = (b.grid p).row := by
  cases res with
  | error e =>
    obtain rfl : b' = b := add_ship_error_snd h
    exact fun p => ⟨Or.inl rfl, rfl, rfl⟩
  | ok u =>
    cases u
    obtain ⟨-, -, rfl⟩ := add_ship_ok_inv h
    intro p
    rw [placeBoard_grid]
    refine ⟨?_, markState_coords.1, markState_coords.2⟩
    by_cases hp : p ∈ s.get_dots
    · exact Or.inr (markState_mem hp)
    · rw [markState_not_mem hp]
      exact Or.inl rfl

/-! ### The claims -/

/-- C5: for every vessel, `Board.contour` is exactly the set of 8-neighborhood
coordinates of the vessel's occupied cells, minus the occupied cells, minus
out-of-bounds coordinates; it never contains an occupied or out-of-bounds
coordinate, and it depends only on the vessel's length, orientation and
anchor coordinates. -/
theorem C5_contour_characterization :
    (∀ (s : Ship) (p : Int × Int),
      p ∈ Board.contour s ↔
        ((∃ q ∈ s.get_dots, p ≠ q ∧
            q.1 - 1 ≤ p.1 ∧ p.1 ≤ q.1 + 1 ∧ q.2 - 1 ≤ p.2 ∧ p.2 ≤ q.2 + 1) ∧
          p ∉ s.get_dots ∧ inB p)) ∧
    (∀ (s : Ship) (p : Int × Int), p ∈ Board.contour s →
      p ∉ s.get_dots ∧ inB p) ∧
    (∀ s t : Ship, s.length = t.length → s.direction = t.direction →
      s.start_point.column = t.start_point.column →
      s.start_point.row = t.start_point.row →
      Board.contour s = Board.contour t) := by
  refine ⟨?_, ?_, ?_⟩
  · intro s p
    rw [mem_contour]
    constructor
    · rintro ⟨⟨q, hq, hex⟩, hnd, hb⟩
      rw [offsets_near] at hex
      exact ⟨⟨q, hq, fun hpq => hnd (hpq ▸ hq), hex.1, hex.2.1, hex.2.2.1,
        hex.2.2.2⟩, hnd, hb⟩
    · rintro ⟨⟨q, hq, _, h1, h2, h3, h4⟩, hnd, hb⟩
      exact ⟨⟨q, hq, offsets_near.2 ⟨h1, h2, h3, h4⟩⟩, hnd, hb⟩
  · intro s p h
    exact ⟨contour_not_dot h, contour_inB h⟩
  · intro s t hl hd hc hr
    have hdots : s.get_dots = t.get_dots := by
      have hfun : runCoord s.direction s.start_point
          = runCoord t.direction t.start_point := by
        funext i
        unfold runCoord
        rw [hd]
        cases t.direction <;> rw [hc, hr]
      rw [get_dots_eq_map, get_dots_eq_map, hl, hfun]
    unfold Board.contour
    rw [hdots]

/-- C8: constructing a cell succeeds exactly on columns and rows in `[1, 6]`
(with initial state hidden), and fails with `boundsError` exactly outside. -/
theorem C8_cell_bounds :
    ∀ c r : Int,
      (mkDot c r = .ok ⟨c, r, .hidden⟩ ↔ inB (c, r)) ∧
      (mkDot c r = .error .boundsError ↔ ¬ inB (c, r)) := by
  intro c r
  by_cases h : inB (c, r)
  · rw [mkDot_ok h]
    simp [h]
  · rw [mkDot_err h]
    simp [h]

/-- C7: given a valid length and orientation, vessel construction fails with
`boundsError` exactly when some cell of the derived run leaves the board, and
returns the ship (with integrity = length) exactly when the whole run fits. -/
theorem C7_ship_construction_bounds (l : Int) (d : Direction) (a : Dot)
    (h1 : 1 ≤ l) (h3 : l ≤ 3) :
    (Ship.make l d a = .error .boundsError ↔
      ∃ i < l.toNat, ¬ inB (runCoord d a i)) ∧
    (Ship.make l d a = .ok ⟨l, d, a, l⟩ ↔
      ∀ i < l.toNat, inB (runCoord d a i)) := by
  unfold Ship.make
  rw [if_pos ⟨h1, h3⟩]
  by_cases hall : (List.range l.toNat).all (fun i =>
      exceptOk (mkDot (runCoord d a i).1 (runCoord d a i).2)) = true
  · have hforall : ∀ i < l.toNat, inB (runCoord d a i) := by
      intro i hi
      have := List.all_eq_true.1 hall i (List.mem_range.2 hi)
      simpa [exceptOk_mkDot] using this
    rw [if_pos hall]
    constructor
    · constructor
      · intro h
        cases h
      · rintro ⟨i, hi, hni⟩
        exact absurd (hforall i hi) hni
    · exact ⟨fun _ => hforall, fun _ => rfl⟩
  · have hex : ∃ i < l.toNat, ¬ inB (runCoord d a i) := by
      rw [List.all_eq_true] at hall
      push_neg at hall
      obtain ⟨i, hi, hni⟩ := hall
      refine ⟨i, List.mem_range.1 hi, ?_⟩
      intro hB
      exact hni (by simpa [exceptOk_mkDot] using hB)
    rw [if_neg hall]
    constructor
    · exact ⟨fun _ => hex, fun _ => rfl⟩
    · constructor
      · intro h
        cases h
      · intro hforall
        obtain ⟨i, hi, hni⟩ := hex
        exact absurd (hforall i hi) hni

/-- Witness for C7 at the concrete input `length 3, horizontal, anchor (5, 5)`:
the derived run leaves the board, so construction fails with `boundsError`. -/
theorem C7_ship_construction_bounds_witness :
    (Ship.make 3 .horizontal ⟨5, 5, .hidden⟩ = .error .boundsError ↔
      ∃ i < (3 : Int).toNat, ¬ inB (runCoord .horizontal ⟨5, 5, .hidden⟩ i)) ∧
    (Ship.make 3 .horizontal ⟨5, 5, .hidden⟩ =
        .ok ⟨3, .horizontal, ⟨5, 5, .hidden⟩, 3⟩ ↔
      ∀ i < (3 : Int).toNat, inB (runCoord .horizontal ⟨5, 5, .hidden⟩ i)) :=
  C7_ship_construction_bounds 3 .horizontal ⟨5, 5, .hidden⟩ (by norm_num) (by norm_num)

/-- C6: the remaining-length list starts as `[3, 2, 2, 1, 1, 1, 1]`; every
successful placement consumes one instance of the placed length and appends
the ship to the fleet; placement with an absent length fails with
`placementError`; through placements alone the fleet size and the remaining
list are complementary, so after 7 placements the list is empty and any
further placement fails with `placementError`. -/
theorem C6_fleet_composition :
    Board.init.ship_length_list = [3, 2, 2, 1, 1, 1, 1] ∧
    (∀ (b : Board) (s : Ship) (b' : Board), b.add_ship s = (.ok (), b') →
      s.length ∈ b.ship_length_list ∧
      b'.ship_length_list = b.ship_length_list.erase s.length ∧
      b'.ships_list = b.ships_list ++ [s]) ∧
    (∀ (b : Board) (s : Ship), s.length ∉ b.ship_length_list →
      b.add_ship s = (.error .placementError, b)) ∧
    (∀ b : Board, ReachP b →
      b.ship_length_list.length + b.ships_list.length = 7 ∧
      (b.ships_list.length = 7 → b.ship_length_list = [] ∧
        ∀ s : Ship, (b.add_ship s).1 = .error .placementError)) := by
  have habsent : ∀ (b : Board) (s : Ship), s.length ∉ b.ship_length_list →
      b.add_ship s = (.error .placementError, b) := by
    intro b s hlen
    by_cases hexcl : ∃ p ∈ s.get_dots, p ∈ occupiedDots b
    · exact add_ship_excl hexcl
    · exact add_ship_no_len hexcl hlen
  refine ⟨rfl, ?_, habsent, ?_⟩
  · intro b s b' h
    obtain ⟨hexcl, hlen, rfl⟩ := add_ship_ok_inv h
    exact ⟨hlen, placeBoard_lengths b s, placeBoard_ships b s⟩
  · intro b hb
    have hcount := reachP_count hb
    refine ⟨hcount, ?_⟩
    intro h7
    have hnil : b.ship_length_list = [] :=
      List.length_eq_zero.1 (by omega)
    refine ⟨hnil, ?_⟩
    intro s
    rw [habsent b s (by rw [hnil]; exact List.not_mem_nil _)]

/-- C1: on every board reachable through successful placements, distinct
placed vessels occupy disjoint cells and no vessel's cells touch another's
contour; `add_ship` fails with `placementError` whenever a candidate cell is
in the union of the placed vessels' occupied and contour cells, and a
successful placement implies no candidate cell was in that union. -/
theorem C1_adjacency_invariant :
    (∀ b : Board, ReachP b → ∀ s ∈ b.ships_list, ∀ t ∈ b.ships_list, s ≠ t →
      (∀ p ∈ s.get_dots, p ∉ t.get_dots) ∧
      (∀ p ∈ s.get_dots, p ∉ Board.contour t)) ∧
    (∀ (b : Board) (s : Ship), (∃ p ∈ s.get_dots, p ∈ occupiedDots b) →
      b.add_ship s = (.error .placementError, b)) ∧
    (∀ (b : Board) (s : Ship) (b' : Board), b.add_ship s = (.ok (), b') →
      ∀ p ∈ s.get_dots, p ∉ occupiedDots b) := by
  refine ⟨?_, ?_, ?_⟩
  · intro b hb s hs t ht hne
    have hinv := inv_reach (reachP_reach hb)
    have hsep : ShipSep s t :=
      (hinv.sep.forall (fun x y h => shipSep_symm h)) hs ht hne
    exact ⟨hsep.1, hsep.2.1⟩
  · intro b s h
    exact add_ship_excl h
  · intro b s b' h p hp hocc
    exact (add_ship_ok_inv h).1 ⟨p, hp, hocc⟩

/-- C3: on a reachable board, shooting an in-bounds cell that is already
damaged or missed fails with `repeatShotError` and leaves the whole board
unchanged; a first shot never fails that way: an undamaged target returns a
hit and a hidden target returns a miss. -/
theorem C3_repeat_shot (b : Board) (hb : Reach b) (c r : Int)
    (hin : 1 ≤ c ∧ c ≤ 6 ∧ 1 ≤ r ∧ r ≤ 6) :
    ((b.grid (c, r)).state = .damaged ∨ (b.grid (c, r)).state = .missed →
      b.shot c r = (.error .repeatShotError, b)) ∧
    ((b.grid (c, r)).state = .undamaged →
      ∃ b', b.shot c r = (.ok true, b')) ∧
    ((b.grid (c, r)).state = .hidden →
      ∃ b', b.shot c r = (.ok false, b')) := by
  refine ⟨fun h => shot_repeat hin h, ?_, fun h => ⟨_, shot_miss hin h⟩⟩
  intro hu
  obtain ⟨l1, s, l2, hsplit, hs, hl1, hl2, hpos, hsync, hcase⟩ :=
    shot_undamaged_result (inv_reach hb) hin hu
  rcases hcase with ⟨-, heq⟩ | ⟨-, heq⟩ <;> exact ⟨_, heq⟩

/-- The example vessel of the walkthrough: length 3, horizontal, anchored at
column 3, row 2. -/
def exShip : Ship := ⟨3, .horizontal, ⟨3, 2, .hidden⟩, 3⟩

def exB1 : Board := (Board.init.add_ship exShip).2

def exB1m : Board := (exB1.shot 1 1).2

/-- Witness for C3 on a concrete reachable board: after placing the example
vessel and missing at (1, 1), cell (1, 1) is missed, so the statement applies
there; its repeat-shot branch is exercised by the hypothesis holding. -/
theorem C3_repeat_shot_witness :
    (((exB1m.grid (1, 1)).state = .damaged ∨ (exB1m.grid (1, 1)).state = .missed →
      exB1m.shot 1 1 = (.error .repeatShotError, exB1m)) ∧
    ((exB1m.grid (1, 1)).state = .undamaged →
      ∃ b', exB1m.shot 1 1 = (.ok true, b')) ∧
    ((exB1m.grid (1, 1)).state = .hidden →
      ∃ b', exB1m.shot 1 1 = (.ok false, b'))) ∧
    (exB1m.grid (1, 1)).state = .missed :=
  ⟨C3_repeat_shot exB1m
      (Reach.shoot (c := 1) (r := 1)
        (Reach.place (s := exShip) Reach.init (by decide) rfl) rfl)
      1 1 (by norm_num),
    by decide⟩

/-- C10: on every reachable board, each undamaged cell belongs to exactly one
vessel of the active fleet, every fleet vessel has integrity at least 1 and
equal to the number of its still-undamaged cells, and no shot ever fails with
the zero-integrity `domainError` of `reduce_health`. -/
theorem C10_fleet_invariant (b : Board) (hb : Reach b) :
    (∀ p : Int × Int, (b.grid p).state = .undamaged →
      ∃ s ∈ b.ships_list, p ∈ s.get_dots ∧
        ∀ t ∈ b.ships_list, p ∈ t.get_dots → t = s) ∧
    (∀ s ∈ b.ships_list, 1 ≤ s.health ∧
      s.health = (undamagedCount b.grid s : Int)) ∧
    (∀ (c r : Int) (e : Err) (b' : Board), b.shot c r = (.error e, b') →
      e ≠ .domainError) := by
  have hinv := inv_reach hb
  refine ⟨?_, ?_, ?_⟩
  · intro p hp
    obtain ⟨s, hs, hps⟩ := hinv.owner p hp
    refine ⟨s, hs, hps, ?_⟩
    intro t ht hpt
    by_contra hne
    exact (hinv.sep.forall (fun x y h => shipSep_symm h) ht hs hne).1 p hpt hps
  · intro s hs
    obtain ⟨h1, h2⟩ := hinv.healthSync s hs
    exact ⟨h2, h1⟩
  · intro c r e b' h
    rcases (shot_error_inv hinv h).2 with rfl | rfl <;> simp

/-- Witness for C10 at the concrete reachable board with the example vessel
placed: the invariant holds there. -/
theorem C10_fleet_invariant_witness :
    (∀ p : Int × Int, (exB1.grid p).state = .undamaged →
      ∃ s ∈ exB1.ships_list, p ∈ s.get_dots ∧
        ∀ t ∈ exB1.ships_list, p ∈ t.get_dots → t = s) ∧
    (∀ s ∈ exB1.ships_list, 1 ≤ s.health ∧
      s.health = (undamagedCount exB1.grid s : Int)) ∧
    (∀ (c r : Int) (e : Err) (b' : Board), exB1.shot c r = (.error e, b') →
      e ≠ .domainError) :=
  C10_fleet_invariant exB1 (Reach.place (s := exShip) Reach.init (by decide) rfl)

/-- A board outside the reachable states: cell (2, 2) undamaged while the one
fleet vessel owning it already has integrity 0.  (The game never produces it,
but the claim quantifies over every grid state.) -/
def zeroHealthBoard : Board where
  grid := setState Board.init.grid (2, 2) .undamaged
  ships_list := [⟨1, .horizontal, ⟨2, 2, .hidden⟩, 0⟩]
  ship_length_list := [3, 2, 2, 1, 1, 1, 1]

/-- Counterexample to C4 as stated over every grid state: on
`zeroHealthBoard`, `shot 2 2` fails with `domainError` (the zero-integrity
branch of `reduce_health`) yet the target cell has already been switched from
undamaged to damaged, so the failing call did mutate the grid. -/
theorem C4_atomicity_counterexample :
    (zeroHealthBoard.shot 2 2).1 = .error .domainError ∧
    (zeroHealthBoard.grid (2, 2)).state = .undamaged ∧
    ((zeroHealthBoard.shot 2 2).2.grid (2, 2)).state = .damaged ∧
    (zeroHealthBoard.shot 2 2).2 ≠ zeroHealthBoard := by
  refine ⟨by decide, by decide, by decide, ?_⟩
  intro h
  exact absurd (congrArg (fun bb => (bb.grid (2, 2)).state) h) (by decide)

/-- C4 amended: `add_ship` is atomic on every failure from every grid state;
`shot` is atomic on every failure from every reachable grid state (the sole
non-atomic path needs a zero-integrity vessel left in the fleet, which no
reachable state contains). -/
theorem C4_atomicity_amended :
    (∀ (b : Board) (s : Ship) (e : Err) (b' : Board),
      b.add_ship s = (.error e, b') → b' = b) ∧
    (∀ b : Board, Reach b → ∀ (c r : Int) (e : Err) (b' : Board),
      b.shot c r = (.error e, b') → b' = b) :=
  ⟨fun _ _ _ _ h => add_ship_error_snd h,
    fun _ hb _ _ _ _ h => (shot_error_inv (inv_reach hb) h).1⟩

def regShipA : Ship := ⟨1, .horizontal, ⟨2, 2, .hidden⟩, 1⟩

def regShipB : Ship := ⟨1, .horizontal, ⟨1, 1, .hidden⟩, 1⟩

def regB1 : Board := (Board.init.add_ship regShipA).2

def regB2 : Board := (regB1.shot 2 2).2

def regB3 : Board := (regB2.add_ship regShipA).2

def regB4 : Board := (regB2.add_ship regShipB).2

/-- Counterexample to C9 as stated over arbitrary place/shoot sequences:
place a 1-length vessel on (2, 2), sink it (cell damaged, contour missed,
fleet empty), and the exclusion set is empty again, so placing over the wreck
succeeds — cell (2, 2) regresses damaged → undamaged, and placing on the
contour cell (1, 1) regresses missed → undamaged. -/
theorem C9_monotonicity_counterexample :
    (Board.init.add_ship regShipA).1 = .ok () ∧
    (regB1.shot 2 2).1 = .ok true ∧
    (regB2.grid (2, 2)).state = .damaged ∧
    (regB2.grid (1, 1)).state = .missed ∧
    regB2.ships_list = [] ∧
    (regB2.add_ship regShipA).1 = .ok () ∧
    (regB3.grid (2, 2)).state = .undamaged ∧
    (regB2.add_ship regShipB).1 = .ok () ∧
    (regB4.grid (1, 1)).state = .undamaged := by
  decide

/-- C9 amended: restricted to runs where every placement precedes every shot
(the game's actual lifecycle), transitions are one-directional.  In the
placement phase every cell is hidden or undamaged, so nothing resolved can
regress; `add_ship` writes nothing but undamaged (every cell keeps its state
or becomes undamaged); `shot` writes nothing but damaged and missed (every
cell keeps its state or becomes damaged or missed), so in particular a
damaged or missed cell never returns to hidden or undamaged under fire; and
neither operation changes any cell's coordinates. -/
theorem C9_monotonicity_amended :
    (∀ b : Board, ReachP b →
      ∀ p, (b.grid p).state = .hidden ∨ (b.grid p).state = .undamaged) ∧
    (∀ (b : Board) (s : Ship) (res : Except Err Unit) (b' : Board),
      b.add_ship s = (res, b') → ∀ p,
        ((b'.grid p).state = (b.grid p).state ∨ (b'.grid p).state = .undamaged) ∧
        (b'.grid p).column = (b.grid p).column ∧
        (b'.grid p).row = (b.grid p).row) ∧
    (∀ (b : Board) (c r : Int) (res : Except Err Bool) (b' : Board),
      b.shot c r = (res, b') → ∀ p,
        ((b'.grid p).state = (b.grid p).state ∨ (b'.grid p).state = .damaged ∨
          (b'.grid p).state = .missed) ∧
        (((b.grid p).state = .damaged ∨ (b.grid p).state = .missed) →
          ((b'.grid p).state = .damaged ∨ (b'.grid p).state = .missed)) ∧
        (b'.grid p).column = (b.grid p).column ∧
        (b'.grid p).row = (b.grid p).row) := by
  refine ⟨fun b hb => reachP_cells hb, ?_, ?_⟩
  · intro b s res b' h p
    exact add_ship_grid_cases h p
  · intro b c r res b' h p
    obtain ⟨hst, hc, hr⟩ := shot_gridLe h p
    refine ⟨hst, ?_, hc, hr⟩
    intro hold
    rcases hst with h' | h' | h'
    · rw [h']
      exact hold
    · exact Or.inl h'
    · exact Or.inr h'

/-- C2: on a reachable board, shooting an undamaged occupied cell of a fleet
vessel whose integrity is 1 returns a hit, marks every cell of that vessel's
contour missed, and removes the vessel from the fleet, while every other
vessel keeps its membership and value (hence its integrity) and the cells it
occupies keep their whole state. -/
theorem C2_sink_frame (b : Board) (s : Ship) (c r : Int) (hb : Reach b)
    (hs : s ∈ b.ships_list) (h1 : s.health = 1) (hd : (c, r) ∈ s.get_dots)
    (hu : (b.grid (c, r)).state = .undamaged) :
    ∃ b', b.shot c r = (.ok true, b') ∧
      (∀ p ∈ Board.contour s, (b'.grid p).state = .missed) ∧
      s ∉ b'.ships_list ∧
      (∀ t ∈ b.ships_list, t ≠ s → t ∈ b'.ships_list) ∧
      (∀ t ∈ b'.ships_list, t ∈ b.ships_list) ∧
      (∀ t ∈ b.ships_list, t ≠ s → ∀ p ∈ t.get_dots, b'.grid p = b.grid p) := by
  have hinv := inv_reach hb
  obtain ⟨-, -, hBd⟩ := hinv.shipsOK s hs
  have hin : 1 ≤ c ∧ c ≤ 6 ∧ 1 ≤ r ∧ r ≤ 6 := hBd (c, r) hd
  obtain ⟨l1, s0, l2, hsplit, hs0, hl1, hl2, hpos, hsync, hcase⟩ :=
    shot_undamaged_result hinv hin hu
  have hss0 : s = s0 := by
    have hmem := hs
    rw [hsplit] at hmem
    rcases List.mem_append.1 hmem with h | h
    · exact absurd hd (hl1 s h)
    · rcases List.mem_cons.1 h with h | h
      · exact h
      · exact absurd hd (hl2 s h)
  subst hss0
  rcases hcase with ⟨-, heq⟩ | ⟨hne1, -⟩
  · have hsep := hinv.sep
    rw [hsplit] at hsep
    obtain ⟨hpw1, hpw2, hp12⟩ := List.pairwise_append.1 hsep
    obtain ⟨hs2, -⟩ := List.pairwise_cons.1 hpw2
    refine ⟨_, heq, ?_, ?_, ?_, ?_, ?_⟩
    · intro p hp
      exact markState_mem hp
    · intro hmem
      rcases List.mem_append.1 hmem with h | h
      · exact hl1 s h hd
      · exact hl2 s h hd
    · intro t ht hne
      rw [hsplit] at ht
      rcases List.mem_append.1 ht with h | h
      · exact List.mem_append_left _ h
      · rcases List.mem_cons.1 h with h | h
        · exact absurd h hne
        · exact List.mem_append_right _ h
    · intro t ht
      rw [hsplit]
      exact mem_of_mem_removed ht
    · intro t ht hne p hpt
      have htpos : t ∈ l1 ∨ t ∈ l2 := by
        rw [hsplit] at ht
        rcases List.mem_append.1 ht with h | h
        · exact Or.inl h
        · rcases List.mem_cons.1 h with h | h
          · exact absurd h hne
          · exact Or.inr h
      have hpnc : p ∉ Board.contour s := by
        rcases htpos with h | h
        · exact (hp12 t h s (by simp)).2.1 p hpt
        · exact (hs2 t h).2.2 p hpt
      have hpcr : p ≠ (c, r) := by
        rcases htpos with h | h
        · intro hpe
          exact hl1 t h (hpe ▸ hpt)
        · intro hpe
          exact hl2 t h (hpe ▸ hpt)
      show markState (setState b.grid (c, r) .damaged) (Board.contour s)
        .missed p = b.grid p
      rw [markState_not_mem hpnc, setState_ne hpcr]
  · exact absurd h1 hne1

def exB2 : Board := (exB1.shot 3 2).2

def exB3 : Board := (exB2.shot 4 2).2

/-- The example vessel after two hits: integrity 1. -/
def exShip1 : Ship := ⟨3, .horizontal, ⟨3, 2, .hidden⟩, 1⟩

/-- Witness for C2, the walkthrough scenario: the example vessel occupies
(3,2), (4,2), (5,2); the first two shots are hits leaving integrity 2 then 1;
the theorem applies to the third shot, which sinks it. -/
theorem C2_sink_frame_witness :
    exShip.get_dots = [(3, 2), (4, 2), (5, 2)] ∧
    (Board.init.add_ship exShip).1 = .ok () ∧
    (exB1.shot 3 2).1 = .ok true ∧
    exB2.ships_list = [⟨3, .horizontal, ⟨3, 2, .hidden⟩, 2⟩] ∧
    (exB2.shot 4 2).1 = .ok true ∧
    exB3.ships_list = [exShip1] ∧
    (∃ b', exB3.shot 5 2 = (.ok true, b') ∧
      (∀ p ∈ Board.contour exShip1, (b'.grid p).state = .missed) ∧
      exShip1 ∉ b'.ships_list ∧
      (∀ t ∈ exB3.ships_list, t ≠ exShip1 → t ∈ b'.ships_list) ∧
      (∀ t ∈ b'.ships_list, t ∈ exB3.ships_list) ∧
      (∀ t ∈ exB3.ships_list, t ≠ exShip1 →
        ∀ p ∈ t.get_dots, b'.grid p = exB3.grid p)) :=
  ⟨by decide, by decide, by decide, by decide, by decide, by decide,
    C2_sink_frame exB3 exShip1 5 2
      (Reach.shoot (c := 4) (r := 2)
        (Reach.shoot (c := 3) (r := 2)
          (Reach.place (s := exShip) Reach.init (by decide) rfl) rfl) rfl)
      (by decide) rfl (by decide) (by decide)⟩
